import Mathlib

/-!
Shallow embedding of the multi-source consensus ingestion pipeline of
`src/polla_app/pipeline.py` (Python module `polla_app.pipeline`).

Conventions of the embedding:
* Python dictionaries become association lists (`List (key × value)`) that
  keep insertion order, matching CPython's ordered dictionaries; lookups
  take the first matching key (identical to a dict when keys are nodup).
* Machine integers are `Int`; Python floats (the mismatch ratio and the
  mismatch threshold) are embedded as exact rationals `ℚ`.
* Python string comparison (`sorted`, `<`) is code-point lexicographic; it
  is embedded by `charListLtB` on `String.data` because Lean's built-in
  `String.lt` decision procedure does not reduce in the kernel.
* `collections.Counter(...).most_common(1)[0]` is embedded by `mostCommon`:
  `Counter` tallies values in first-occurrence order and `most_common`
  sorts by count with a stable sort, so the winner is the earliest
  first-occurring value among those achieving the maximal count.
* Fallible code (`raise RuntimeError`) becomes `Except String`; the
  orchestrator while-loop over retries is embedded with explicit fuel.
-/

namespace Polla

/-- Code-point strict lexicographic order on character lists, the order
Python uses to compare strings (`sorted`, tuple comparison). -/
def charListLtB : List Char → List Char → Bool
  | [], [] => false
  | [], _ :: _ => true
  | _ :: _, [] => false
  | a :: as, b :: bs =>
    if a.toNat < b.toNat then true
    else if b.toNat < a.toNat then false
    else charListLtB as bs

/-- Total order on strings used to embed Python's `sorted` on strings. -/
def strLe (a b : String) : Prop := (a = b ∨ charListLtB a.data b.data = true)

instance : DecidableRel strLe := fun a b => by unfold strLe; infer_instance

/-- First-match association-list lookup, the embedding of a Python dict
lookup (`d[k]` / `k in d`). -/
def alookup {β : Type} (k : String) : List (String × β) → Option β
  | [] => none
  | p :: rest => if p.1 = k then some p.2 else alookup k rest

/-- Per-category value reported by one source: the `(premio_clp, ganadores)`
tuple built by `_build_consensus`. -/
structure CategoryAmount where
  premio_clp : Int
  ganadores : Int
deriving DecidableEq

/-- One row of a record's `premios` list (keys `categoria`, `premio_clp`,
`ganadores`), also the shape of a consensus row. -/
structure PrizeRow where
  categoria : String
  premio_clp : Int
  ganadores : Int
deriving DecidableEq

/-- The draw / consensus record manipulated by the pipeline.  Fields the
claims never inspect (`fuente`, `provenance`) are omitted. -/
structure DrawRecord where
  sorteo : Option Int
  fecha : Option String
  premios : List PrizeRow
  pozos_proximo : List (String × Int)
deriving DecidableEq

/-- A per-source category map (`map<PrizeCategory, CategoryAmount>`). -/
abbrev CatMap := List (String × CategoryAmount)

/-- The input of `_build_consensus`: `map<source_name, CatMap>`. -/
abbrev SourceMap := List (String × CatMap)

/-- Dict assignment `mapping[categoria] = value`: replaces in place or
appends at the end, like a CPython ordered dict. -/
def upsert (m : CatMap) (k : String) (v : CategoryAmount) : CatMap :=
  match m with
  | [] => [(k, v)]
  | (k', v') :: rest => if k' = k then (k, v) :: rest else (k', v') :: upsert rest k v

/-- Embedding of `_category_map` (pipeline.py lines 186-195): the category
map of a record, skipping rows whose `categoria` is falsy (empty). -/
def categoryMap (premios : List PrizeRow) : CatMap :=
  premios.foldl
    (fun m item =>
      if item.categoria ≠ "" then upsert m item.categoria ⟨item.premio_clp, item.ganadores⟩
      else m)
    []

/-- The sorted union of category keys over all sources
(`categories.update(data.keys())` followed by `sorted(categories)`). -/
def sortedCategories (m : SourceMap) : List String :=
  List.insertionSort strLe (m.flatMap (fun p => p.2.map Prod.fst)).dedup

/-- For one category, the per-source reported values in source order
(the `values` dict of `_build_consensus`). -/
def valuesAt (m : SourceMap) (c : String) : List (String × CategoryAmount) :=
  m.filterMap (fun p => (alookup c p.2).map (fun v => (p.1, v)))

/-- The raw value tuples for one category, in source order. -/
def valsOf (m : SourceMap) (c : String) : List CategoryAmount :=
  (valuesAt m c).map Prod.snd

/-- The maximal multiplicity among the values of the list (the count of the
winner of `Counter(values.values()).most_common(1)`). -/
def maxCount (vals : List CategoryAmount) : Nat :=
  (vals.map (fun v => vals.count v)).foldr max 0

/-- Embedding of `Counter(vals).most_common(1)[0]`: the earliest value of
`vals` achieving the maximal count, paired with that count; `none` on the
empty list (where Python would raise an IndexError). -/
def mostCommon (vals : List CategoryAmount) : Option (CategoryAmount × Nat) :=
  (vals.find? (fun v => vals.count v == maxCount vals)).map (fun v => (v, vals.count v))

/-- The majority value and its support for one category. -/
def majorityAt (m : SourceMap) (c : String) : Option (CategoryAmount × Nat) :=
  mostCommon (valsOf m c)

/-- The `disagreeing` map of `_build_consensus` for one category: the
sources whose value differs from the majority value. -/
def disagreeingAt (m : SourceMap) (c : String) : List (String × CategoryAmount) :=
  match majorityAt m c with
  | none => []
  | some (mv, _) => (valuesAt m c).filter (fun p => p.2 ≠ mv)

/-- The `missing_sources` list of `_build_consensus` for one category: the
sources (in source order) that did not report the category. -/
def missingAt (m : SourceMap) (c : String) : List String :=
  (m.filter (fun p => (alookup c p.2).isNone)).map Prod.fst

/-- One entry of the `mismatches` list of `_build_consensus`.  The nested
`consensus` dict is flattened into the `premio_clp` / `ganadores` /
`support` fields. -/
structure Mismatch where
  categoria : String
  premio_clp : Int
  ganadores : Int
  support : Nat
  disagreeing : List (String × CategoryAmount)
  missing_sources : List String
deriving DecidableEq

/-- The consensus row emitted for one category (`none` when no source
reported the category). -/
def consensusAt (m : SourceMap) (c : String) : Option PrizeRow :=
  (majorityAt m c).map (fun mc => ⟨c, mc.1.premio_clp, mc.1.ganadores⟩)

/-- The mismatch entry emitted for one category, if any: present exactly
when some source disagreed with the majority or failed to report the
category. -/
def mismatchAt (m : SourceMap) (c : String) : Option Mismatch :=
  match majorityAt m c with
  | none => none
  | some (mv, cnt) =>
    if (disagreeingAt m c).isEmpty && (missingAt m c).isEmpty then none
    else some ⟨c, mv.premio_clp, mv.ganadores, cnt, disagreeingAt m c, missingAt m c⟩

/-- Embedding of `_build_consensus` (pipeline.py lines 198-253): consensus
rows, mismatches and the mismatch ratio (`0.0` when there are no rows). -/
def buildConsensus (m : SourceMap) : List PrizeRow × List Mismatch × ℚ :=
  let cats := sortedCategories m
  let rows := cats.filterMap (consensusAt m)
  let mms := cats.filterMap (mismatchAt m)
  let ratio : ℚ := if rows.isEmpty then 0 else (mms.length : ℚ) / (rows.length : ℚ)
  (rows, mms, ratio)

/-- A `(categoria, premio_clp, ganadores)` tuple of `_normalise_prizes`. -/
abbrev PrizeTuple := String × Int × Int

/-- Python's tuple comparison order on prize tuples: lexicographic with
code-point string comparison first. -/
def tupleLe (a b : PrizeTuple) : Prop :=
  charListLtB a.1.data b.1.data = true ∨
    (a.1 = b.1 ∧ (a.2.1 < b.2.1 ∨ (a.2.1 = b.2.1 ∧ a.2.2 ≤ b.2.2)))

instance : DecidableRel tupleLe := fun a b => by unfold tupleLe; infer_instance

/-- Embedding of `_normalise_prizes` inside `_compare_with_previous`:
the sorted list of `(categoria, premio_clp, ganadores)` tuples. -/
def normalisePrizes (premios : List PrizeRow) : List PrizeTuple :=
  List.insertionSort tupleLe (premios.map (fun r => (r.categoria, r.premio_clp, r.ganadores)))

/-- The candidate scan of `_compare_with_previous`: skips candidates whose
`sorteo` differs, returns `false` (unchanged) on the first candidate whose
normalised prizes equal the current ones, `true` after exhausting all. -/
def compareLoop (s : Int) (target : List PrizeTuple) : List DrawRecord → Bool
  | [] => true
  | c :: rest =>
    if c.sorteo ≠ some s then compareLoop s target rest
    else if normalisePrizes c.premios = target then false
    else compareLoop s target rest

/-- Embedding of `_compare_with_previous` (pipeline.py lines 272-295):
`true` iff the prizes changed compared to the persisted records. -/
def compareWithPrevious (current : DrawRecord) (previous : List DrawRecord) : Bool :=
  match current.sorteo with
  | none => true
  | some s => compareLoop s (normalisePrizes current.premios) previous

/-- ASCII lowercasing of one character (embedding `str.lower` on the
ASCII range the pipeline's category names use). -/
def charLower (c : Char) : Char :=
  if 65 ≤ c.toNat ∧ c.toNat ≤ 90 then Char.ofNat (c.toNat + 32) else c

/-- List version of `str.startswith`. -/
def startsWithB : List Char → List Char → Bool
  | _, [] => true
  | [], _ :: _ => false
  | a :: as, b :: bs => decide (a = b) && startsWithB as bs

/-- Embedding of `str(categoria).lower().startswith("total")`. -/
def lowerStartsWithTotal (s : String) : Bool :=
  startsWithB (s.data.map charLower) "total".data

/-- Embedding of `str(status).startswith("publish")` and similar. -/
def pyStartsWith (s pre : String) : Bool := startsWithB s.data pre.data

/-- Dict `setdefault`: keeps an existing key, appends a missing one. -/
def setdefault (m : List (String × Int)) (k : String) (v : Int) : List (String × Int) :=
  if (alookup k m).isSome then m else m ++ [(k, v)]

/-- A pozo aggregator payload (`get_pozo_*` result); only the fields the
pipeline reads are modelled. -/
structure PozoPayload where
  sorteo : Option Int
  fecha : Option String
  montos : List (String × Int)
deriving DecidableEq

/-- One source's contribution to the merged pozos: every non-"total" key of
its `montos` is added with `setdefault` (the inner loop of `_merge_pozos`). -/
def mergeOne (m : List (String × Int)) (montos : List (String × Int)) :
    List (String × Int) :=
  montos.foldl
    (fun acc p => if lowerStartsWithTotal p.1 then acc else setdefault acc p.1 p.2)
    m

/-- Embedding of `_merge_pozos` (pipeline.py lines 315-338), restricted to
the merged amounts (the provenance descriptors are not modelled). -/
def mergePozos (collected : List PozoPayload) : List (String × Int) :=
  collected.foldl (fun merged entry => mergeOne merged entry.montos) []

/-- Python `==` on two string-keyed int dicts (order-insensitive equality
of key-value mappings). -/
def dictEq (a b : List (String × Int)) : Bool :=
  a.all (fun p => decide (alookup p.1 b = some p.2)) &&
    b.all (fun p => decide (alookup p.1 a = some p.2))

/-- The decision branch of `run_pipeline` (pipeline.py lines 730-746). -/
def decideStatus (mismatchCount : Nat) (ratio threshold : ℚ) : String :=
  if mismatchCount = 0 then "publish"
  else if ratio ≤ threshold then "publish_with_warnings"
  else "quarantine"

/-- One entry of the `failures` list of the run. -/
structure Failure where
  source : String
  url : Option String
  error : String
deriving DecidableEq

/-- The `RunSummary` contract (run_id, timestamps and artifact paths are
not modelled; the decision dict is flattened). -/
structure Summary where
  decisionStatus : String
  prizesChanged : Bool
  publish : Bool
  totalCategories : Nat
  mismatchedCategories : Nat
deriving DecidableEq

/-- The comparison report (run metadata and timestamps not modelled). -/
structure Report where
  decisionStatus : String
  totalCategories : Nat
  mismatchedCategories : Nat
  prizesChanged : Bool
  mismatches : List Mismatch
  failures : List Failure
deriving DecidableEq

/-- The artifact files written by one run; a `none` field means the file
was not written. -/
structure Outputs where
  normalized : Option (List DrawRecord)
  state : Option (List DrawRecord)
  report : Option Report
  summaryFile : Option Summary
deriving DecidableEq

/-- `max((res.record.get("sorteo") or 0) for res in results)`. -/
def maxSorteo (results : List (String × DrawRecord)) : Int :=
  match results.map (fun p => p.2.sorteo.getD 0) with
  | [] => 0
  | x :: xs => xs.foldl (fun acc v => if acc < v then v else acc) x

/-- `max(fechas)` over the non-null `fecha` strings, `none` when empty. -/
def maxFecha (results : List (String × DrawRecord)) : Option String :=
  match results.filterMap (fun p => p.2.fecha) with
  | [] => none
  | x :: xs => some (xs.foldl (fun acc v => if charListLtB acc.data v.data then v else acc) x)

/-- `category_views = {item.name: _category_map(item.record) for item in results}`. -/
def viewsOf (results : List (String × DrawRecord)) : SourceMap :=
  results.map (fun p => (p.1, categoryMap p.2.premios))

/-- Embedding of the multi-source tail of `run_pipeline` (pipeline.py lines
593-805): everything after the loading loop.  `requested` is the
normalised requested source names (used for the empty-run report). -/
def postLoad (results : List (String × DrawRecord)) (failures : List Failure)
    (requested : List String) (previous : List DrawRecord) (threshold : ℚ) :
    Except String (Summary × Outputs) :=
  if results.isEmpty then
    let report : Report :=
      ⟨"quarantine", 0, 0, false, [],
        if failures.isEmpty then requested.map (fun s => ⟨s, none, "No candidate URLs"⟩)
        else failures⟩
    let summary : Summary := ⟨"quarantine", false, false, 0, 0⟩
    .ok (summary, ⟨some [], some [], some report, some summary⟩)
  else
    let bc := buildConsensus (viewsOf results)
    if bc.1.isEmpty then .error "No prize categories available after parsing all sources"
    else
      let record : DrawRecord :=
        { sorteo := some (maxSorteo results), fecha := maxFecha results,
          premios := bc.1, pozos_proximo := [] }
      let prizesChanged := compareWithPrevious record previous
      let status := decideStatus bc.2.1.length bc.2.2 threshold
      let summary : Summary :=
        ⟨status, prizesChanged, pyStartsWith status "publish", bc.1.length, bc.2.1.length⟩
      let report : Report := ⟨status, bc.1.length, bc.2.1.length, prizesChanged, bc.2.1, failures⟩
      .ok (summary, ⟨some [record], some [record], some report, some summary⟩)

/-- Loader behaviour for one source: the per-URL, per-attempt outcome of
`loader(url, timeout)` (an exception becomes `Except.error`). -/
structure SourceSpec where
  name : String
  candidateUrls : List String
  outcome : String → Nat → Except String DrawRecord

/-- The retry `while True` loop of `run_pipeline` (pipeline.py lines
534-578) for a single URL, with explicit fuel (the loop makes at most
`retries` loader calls, so `fuel = retries` at entry suffices and the
fuel-exhausted branch is unreachable).  `attempt` counts failures so far;
returns the parsed record if any, the total number of loader calls made,
and the list of backoff sleeps `min(2 * attempt, 10)` performed. -/
def tryUrlGo (outcome : Nat → Except String DrawRecord) (retries : Nat) :
    Nat → Nat → Option DrawRecord × Nat × List Nat
  | attempt, 0 =>
    match outcome attempt with
    | .ok r => (some r, attempt + 1, [])
    | .error _ => (none, attempt + 1, [])
  | attempt, fuel + 1 =>
    match outcome attempt with
    | .ok r => (some r, attempt + 1, [])
    | .error _ =>
      if retries ≤ attempt + 1 then (none, attempt + 1, [])
      else
        let rest := tryUrlGo outcome retries (attempt + 1) fuel
        (rest.1, rest.2.1, min (2 * (attempt + 1)) 10 :: rest.2.2)

/-- The retry loop for one URL: up to `retries` loader calls with linear
backoff, started with zero failures. -/
def tryUrl (outcome : Nat → Except String DrawRecord) (retries : Nat) :
    Option DrawRecord × Nat × List Nat :=
  tryUrlGo outcome retries 0 retries

/-- The `for url in candidate_urls` loop: first URL to parse wins. -/
def tryUrls (outcome : String → Nat → Except String DrawRecord) (retries : Nat) :
    List String → Option DrawRecord
  | [] => none
  | u :: rest =>
    match (tryUrl (outcome u) retries).1 with
    | some r => some r
    | none => tryUrls outcome retries rest

/-- The source-loading loop of `run_pipeline` (pipeline.py lines 500-591):
accumulates results and failures in order; `fail_fast` turns a missing URL
or an exhausted source into a run-aborting error. -/
def loadSourcesGo (retries : Nat) (failFast : Bool) :
    List SourceSpec → List (String × DrawRecord) → List Failure →
    Except String (List (String × DrawRecord) × List Failure)
  | [], results, failures => .ok (results, failures)
  | spec :: rest, results, failures =>
    if spec.candidateUrls.isEmpty then
      if failFast then .error ("No URL configured for source " ++ spec.name)
      else loadSourcesGo retries failFast rest results
        (failures ++ [⟨spec.name, none, "Source skipped: missing URL"⟩])
    else
      match tryUrls spec.outcome retries spec.candidateUrls with
      | some r => loadSourcesGo retries failFast rest (results ++ [(spec.name, r)]) failures
      | none =>
        if failFast then .error ("Failed to load any URL for source " ++ spec.name)
        else loadSourcesGo retries failFast rest results
          (failures ++ [⟨spec.name, spec.candidateUrls.head?, "All candidate URLs failed"⟩])

/-- The loading phase of `run_pipeline`, started with empty accumulators. -/
def loadSources (specs : List SourceSpec) (retries : Nat) (failFast : Bool) :
    Except String (List (String × DrawRecord) × List Failure) :=
  loadSourcesGo retries failFast specs [] []

/-- Embedding of the multi-source draw path of `run_pipeline`: loading
followed by consensus, decision, state comparison and artifact writing. -/
def runPipelineModel (specs : List SourceSpec) (retries : Nat) (failFast : Bool)
    (previous : List DrawRecord) (threshold : ℚ) : Except String (Summary × Outputs) :=
  match loadSources specs retries failFast with
  | .error e => .error e
  | .ok (results, failures) =>
    postLoad results failures (specs.map SourceSpec.name) previous threshold

/-- The change check of the pozos-only path (pipeline.py lines 408-417):
scan the previous records for the first with matching `sorteo` and `fecha`
(the loop breaks on the first match) and compare its amounts dict. -/
def pozosUnchanged (previous : List DrawRecord) (primary : PozoPayload)
    (merged : List (String × Int)) : Bool :=
  match previous.find?
      (fun p => decide (p.sorteo = primary.sorteo) && decide (p.fecha = primary.fecha)) with
  | none => false
  | some p => dictEq p.pozos_proximo merged

/-- Embedding of the pozos-only fast path of `run_pipeline` (pipeline.py
lines 387-485): merge the collected payloads, compare against the first
previously persisted record with the same `sorteo` and `fecha`, and decide
`skip` / `publish` / `publish_forced`. -/
def runPozos (collected : List PozoPayload) (previous : List DrawRecord)
    (forcePublish : Bool) : Except String (Summary × Outputs) :=
  match collected with
  | [] => .error "No pozo sources returned data"
  | primary :: _ =>
    let merged := mergePozos collected
    let record : DrawRecord :=
      { sorteo := primary.sorteo, fecha := primary.fecha,
        premios := [], pozos_proximo := merged }
    let unchanged := pozosUnchanged previous primary merged
    let status :=
      if forcePublish && unchanged then "publish_forced"
      else if unchanged then "skip" else "publish"
    let publishFlag := if unchanged then forcePublish else true
    let summary : Summary := ⟨status, !unchanged, publishFlag, merged.length, 0⟩
    let report : Report := ⟨status, merged.length, 0, !unchanged, [], []⟩
    .ok (summary, ⟨some [record], some [record], some report, some summary⟩)

/-- The list of value tuples of one category has no tie for the maximal
count: any two values achieving the maximal multiplicity are equal. -/
def UniqueMax (vals : List CategoryAmount) : Prop :=
  ∀ v₁ ∈ vals, ∀ v₂ ∈ vals,
    vals.count v₁ = maxCount vals → vals.count v₂ = maxCount vals → v₁ = v₂

instance (vals : List CategoryAmount) : Decidable (UniqueMax vals) := by
  unfold UniqueMax; infer_instance

/-- Every category of the source map has a uniquely determined majority
value (no tie in maximal support). -/
def NoTies (m : SourceMap) : Prop :=
  ∀ c ∈ sortedCategories m, UniqueMax (valsOf m c)

instance (m : SourceMap) : Decidable (NoTies m) := by
  unfold NoTies; infer_instance

/-- Two mismatch entries that agree on everything observable, with the
`disagreeing` dict and the `missing_sources` list compared up to order. -/
def MismatchEquiv (a b : Mismatch) : Prop :=
  a.categoria = b.categoria ∧ a.premio_clp = b.premio_clp ∧ a.ganadores = b.ganadores ∧
    a.support = b.support ∧ a.disagreeing.Perm b.disagreeing ∧
    a.missing_sources.Perm b.missing_sources

/-- The number of sources recorded as disagreeing for one category. -/
def disagreeCount (m : SourceMap) (c : String) : Nat := (disagreeingAt m c).length

/-- The merged pozo record is identical (sorteo, fecha and per-category
amounts, the latter as Python dict equality) to some persisted record. -/
def pozosIdentical (collected : List PozoPayload) (primary : PozoPayload)
    (previous : List DrawRecord) : Prop :=
  ∃ p ∈ previous, p.sorteo = primary.sorteo ∧ p.fecha = primary.fecha ∧
    dictEq p.pozos_proximo (mergePozos collected) = true

instance (collected : List PozoPayload) (primary : PozoPayload)
    (previous : List DrawRecord) :
    Decidable (pozosIdentical collected primary previous) := by
  unfold pozosIdentical; infer_instance

/-- Concrete draw record used by the witnesses. -/
def wRecord : DrawRecord :=
  ⟨some 5, some "2024-12-01", [⟨"Loto", 100, 2⟩, ⟨"Terna", 1000, 10⟩], []⟩

/-- A source whose loader always succeeds with `wRecord`. -/
def wSpecOk : SourceSpec := ⟨"s", ["u"], fun _ _ => .ok wRecord⟩

/-- A source whose loader always raises. -/
def wSpecBad : SourceSpec := ⟨"s", ["u"], fun _ _ => .error "boom"⟩

/-- A per-attempt outcome that raises twice and then succeeds. -/
def wOutcome : Nat → Except String DrawRecord :=
  fun k => if k < 2 then .error "boom" else .ok wRecord

/-- Two pozo payloads: the primary reports a "Total" row and `Loto`; the
fallback reports `Loto` (a different estimate) and `Recargado`. -/
def wCollected : List PozoPayload :=
  [⟨some 1, some "2025-01-01", [("Total Estimado", 900), ("Loto", 100)]⟩,
   ⟨some 1, some "2025-01-01", [("Loto", 250), ("Recargado", 300)]⟩]

/-- The state record a pozos-only run of `wCollected` persists. -/
def wPozoState : DrawRecord :=
  ⟨some 1, some "2025-01-01", [], [("Loto", 100), ("Recargado", 300)]⟩

/-! Order lemmas for the string and tuple orders used by the sorts. -/

theorem charListLtB_irrefl : ∀ l : List Char, charListLtB l l = false
  | [] => rfl
  | a :: as => by
    simp only [charListLtB, lt_irrefl a.toNat, if_false]
    exact charListLtB_irrefl as

theorem charListLtB_asymm : ∀ {l₁ l₂ : List Char},
    charListLtB l₁ l₂ = true → charListLtB l₂ l₁ = false
  | [], [] => by simp [charListLtB]
  | [], _ :: _ => fun _ => rfl
  | _ :: _, [] => by simp [charListLtB]
  | a :: as, b :: bs => by
    intro h
    simp only [charListLtB] at h ⊢
    by_cases h1 : a.toNat < b.toNat
    · have h2 : ¬ b.toNat < a.toNat := by omega
      simp [h1, h2]
    · by_cases h2 : b.toNat < a.toNat
      · simp [h1, h2] at h
      · simp only [h1, h2, if_false] at h ⊢
        exact charListLtB_asymm h

theorem charListLtB_trans : ∀ {l₁ l₂ l₃ : List Char},
    charListLtB l₁ l₂ = true → charListLtB l₂ l₃ = true → charListLtB l₁ l₃ = true
  | [], l₂, [] => by intro _ h2; cases l₂ <;> simp [charListLtB] at h2
  | [], _, _ :: _ => by intro _ _; rfl
  | _ :: _, [], _ => by intro h1 _; simp [charListLtB] at h1
  | _ :: _, _ :: _, [] => by intro _ h2; simp [charListLtB] at h2
  | a :: as, b :: bs, c :: cs => by
    intro h1 h2
    simp only [charListLtB] at h1 h2 ⊢
    by_cases hab : a.toNat < b.toNat
    · have hac : a.toNat < c.toNat := by
        by_cases hbc : b.toNat < c.toNat
        · omega
        · by_cases hcb : c.toNat < b.toNat
          · simp [hbc, hcb] at h2
          · omega
      simp [hac]
    · by_cases hba : b.toNat < a.toNat
      · simp [hab, hba] at h1
      · simp only [hab, hba, if_false] at h1
        by_cases hbc : b.toNat < c.toNat
        · have hac : a.toNat < c.toNat := by omega
          simp [hac]
        · by_cases hcb : c.toNat < b.toNat
          · simp [hbc, hcb] at h2
          · simp only [hbc, hcb, if_false] at h2
            have hac : ¬ a.toNat < c.toNat := by omega
            have hca : ¬ c.toNat < a.toNat := by omega
            simp only [hac, hca, if_false]
            exact charListLtB_trans h1 h2

theorem charListLtB_connect : ∀ {l₁ l₂ : List Char},
    charListLtB l₁ l₂ = false → charListLtB l₂ l₁ = false → l₁ = l₂
  | [], [] => fun _ _ => rfl
  | [], _ :: _ => by intro h1 _; simp [charListLtB] at h1
  | _ :: _, [] => by intro _ h2; simp [charListLtB] at h2
  | a :: as, b :: bs => by
    intro h1 h2
    simp only [charListLtB] at h1 h2
    by_cases hab : a.toNat < b.toNat
    · simp [hab] at h1
    · by_cases hba : b.toNat < a.toNat
      · simp [hba, hab] at h2
      · have heq : a.toNat = b.toNat := by omega
        have hchar : a = b := Char.ext (UInt32.ext heq)
        subst hchar
        simp only [hab, if_false] at h1 h2
        rw [charListLtB_connect h1 h2]

instance : IsTotal String strLe where
  total a b := by
    by_cases hab : charListLtB a.data b.data = true
    · exact Or.inl (Or.inr hab)
    · by_cases hba : charListLtB b.data a.data = true
      · exact Or.inr (Or.inr hba)
      · exact Or.inl (Or.inl (String.ext
          (charListLtB_connect (Bool.eq_false_iff.mpr hab) (Bool.eq_false_iff.mpr hba))))

instance : IsTrans String strLe where
  trans a b c hab hbc := by
    rcases hab with rfl | hab
    · exact hbc
    · rcases hbc with rfl | hbc
      · exact Or.inr hab
      · exact Or.inr (charListLtB_trans hab hbc)

instance : IsAntisymm String strLe where
  antisymm a b hab hba := by
    rcases hab with rfl | hab
    · rfl
    · rcases hba with rfl | hba
      · rfl
      · have h := charListLtB_asymm hab
        rw [hba] at h
        exact absurd h (by simp)

instance : IsTotal PrizeTuple tupleLe where
  total a b := by
    by_cases h1 : charListLtB a.1.data b.1.data = true
    · exact Or.inl (Or.inl h1)
    by_cases h2 : charListLtB b.1.data a.1.data = true
    · exact Or.inr (Or.inl h2)
    have hs : a.1 = b.1 := String.ext
      (charListLtB_connect (Bool.eq_false_iff.mpr h1) (Bool.eq_false_iff.mpr h2))
    rcases lt_trichotomy a.2.1 b.2.1 with h | h | h
    · exact Or.inl (Or.inr ⟨hs, Or.inl h⟩)
    · rcases le_total a.2.2 b.2.2 with h' | h'
      · exact Or.inl (Or.inr ⟨hs, Or.inr ⟨h, h'⟩⟩)
      · exact Or.inr (Or.inr ⟨hs.symm, Or.inr ⟨h.symm, h'⟩⟩)
    · exact Or.inr (Or.inr ⟨hs.symm, Or.inl h⟩)

instance : IsTrans PrizeTuple tupleLe where
  trans a b c hab hbc := by
    rcases hab with hab | ⟨hs1, hab⟩
    · rcases hbc with hbc | ⟨hs2, _⟩
      · exact Or.inl (charListLtB_trans hab hbc)
      · exact Or.inl (hs2 ▸ hab)
    · rcases hbc with hbc | ⟨hs2, hbc⟩
      · exact Or.inl (hs1 ▸ hbc)
      · refine Or.inr ⟨hs1.trans hs2, ?_⟩
        rcases hab with h | ⟨he, h⟩ <;> rcases hbc with h' | ⟨he', h'⟩
        · exact Or.inl (h.trans h')
        · exact Or.inl (he' ▸ h)
        · exact Or.inl (he ▸ h')
        · exact Or.inr ⟨he.trans he', h.trans h'⟩

instance : IsAntisymm PrizeTuple tupleLe where
  antisymm a b hab hba := by
    rcases hab with hab | ⟨hs1, hab⟩
    · rcases hba with hba | ⟨hs2, _⟩
      · have h := charListLtB_asymm hab
        rw [hba] at h
        exact absurd h (by simp)
      · rw [hs2] at hab
        rw [charListLtB_irrefl] at hab
        exact absurd hab (by simp)
    · rcases hba with hba | ⟨hs2, hba⟩
      · rw [hs1] at hba
        rw [charListLtB_irrefl] at hba
        exact absurd hba (by simp)
      · have h1 : a.2.1 = b.2.1 := by
          rcases hab with h | ⟨he, _⟩ <;> rcases hba with h' | ⟨he', _⟩ <;> omega
        have h2 : a.2.2 = b.2.2 := by
          rcases hab with h | ⟨he, h⟩ <;> rcases hba with h' | ⟨he', h'⟩ <;> omega
        have : a.2 = b.2 := Prod.ext h1 h2
        exact Prod.ext hs1 this

example :
    (buildConsensus
      [("A", [("Loto", ⟨100, 2⟩)]),
       ("B", [("Loto", ⟨100, 2⟩), ("Recargado", ⟨50, 0⟩)])]).1 =
    [⟨"Loto", 100, 2⟩, ⟨"Recargado", 50, 0⟩] := by decide

example :
    (buildConsensus
      [("A", [("Loto", ⟨100, 2⟩)]),
       ("B", [("Loto", ⟨100, 2⟩), ("Recargado", ⟨50, 0⟩)])]).2.1 =
    [⟨"Recargado", 50, 0, 1, [], ["A"]⟩] := by decide

/-! Sorting is a canonical form: permutations sort equal. -/

theorem normalisePrizes_perm {l₁ l₂ : List PrizeRow} (h : l₁.Perm l₂) :
    normalisePrizes l₁ = normalisePrizes l₂ := by
  unfold normalisePrizes
  exact List.eq_of_perm_of_sorted
    ((List.perm_insertionSort _ _).trans ((h.map _).trans (List.perm_insertionSort _ _).symm))
    (List.sorted_insertionSort _ _) (List.sorted_insertionSort _ _)

theorem compareLoop_false_iff (s : Int) (target : List PrizeTuple) (l : List DrawRecord) :
    (compareLoop s target l = false ↔
      ∃ p ∈ l, p.sorteo = some s ∧ normalisePrizes p.premios = target) := by
  induction l with
  | nil => simp [compareLoop]
  | cons c rest ih =>
    by_cases h1 : c.sorteo = some s
    · by_cases h2 : normalisePrizes c.premios = target
      · simp [compareLoop, h1, h2]
      · simp only [compareLoop, h1, h2]
        simp only [ne_eq, not_true_eq_false, if_false, if_neg h2, ih,
          List.mem_cons]
        constructor
        · rintro ⟨p, hp, hps, hpt⟩
          exact ⟨p, Or.inr hp, hps, hpt⟩
        · rintro ⟨p, hp | hp, hps, hpt⟩
          · exact absurd (hp ▸ hpt) h2
          · exact ⟨p, hp, hps, hpt⟩
    · simp only [compareLoop, ne_eq, h1, not_false_eq_true, if_true, ih, List.mem_cons]
      constructor
      · rintro ⟨p, hp, hps, hpt⟩
        exact ⟨p, Or.inr hp, hps, hpt⟩
      · rintro ⟨p, hp | hp, hps, hpt⟩
        · exact absurd (hp ▸ hps) h1
        · exact ⟨p, hp, hps, hpt⟩

/-- C6: the idempotency tracker reports changed when the new record has no
`sorteo`; otherwise it reports unchanged exactly when some previous record
has the same `sorteo` and an equal sorted `(categoria, premio_clp,
ganadores)` tuple list; and the verdict does not depend on the order of
the current record's prize rows. -/
theorem tracker_change_detection (current : DrawRecord) (previous : List DrawRecord) :
    (current.sorteo = none → compareWithPrevious current previous = true) ∧
    (∀ s : Int, current.sorteo = some s →
      (compareWithPrevious current previous = false ↔
        ∃ p ∈ previous, p.sorteo = some s ∧
          normalisePrizes p.premios = normalisePrizes current.premios)) ∧
    (∀ premios₂ : List PrizeRow, premios₂.Perm current.premios →
      compareWithPrevious { current with premios := premios₂ } previous =
        compareWithPrevious current previous) := by
  refine ⟨?_, ?_, ?_⟩
  · intro h
    simp [compareWithPrevious, h]
  · intro s hs
    simp only [compareWithPrevious, hs]
    exact compareLoop_false_iff s (normalisePrizes current.premios) previous
  · intro premios₂ hperm
    have h := normalisePrizes_perm hperm
    simp only [compareWithPrevious]
    cases hcur : current.sorteo with
    | none => rfl
    | some s => rw [h]

/-- Witness for C6: the tracker reports unchanged on a permuted but equal
two-category record with matching `sorteo`. -/
theorem tracker_change_detection_witness :
    compareWithPrevious wRecord
      [⟨some 5, none, [⟨"Terna", 1000, 10⟩, ⟨"Loto", 100, 2⟩], []⟩] = false :=
  ((tracker_change_detection wRecord
      [⟨some 5, none, [⟨"Terna", 1000, 10⟩, ⟨"Loto", 100, 2⟩], []⟩]).2.1 5 rfl).mpr
    (by decide)

/-- C9: when at least one source loaded but the consensus has zero prize
categories, the pipeline raises a hard failure instead of producing a
summary (distinct from the zero-sources case, which returns quarantine). -/
theorem empty_consensus_raises (results : List (String × DrawRecord))
    (failures : List Failure) (requested : List String) (previous : List DrawRecord)
    (threshold : ℚ) (hne : results ≠ [])
    (hrows : (buildConsensus (viewsOf results)).1 = []) :
    postLoad results failures requested previous threshold =
      .error "No prize categories available after parsing all sources" := by
  have h1 : results.isEmpty = false := by
    cases results with
    | nil => exact absurd rfl hne
    | cons a l => rfl
  unfold postLoad
  rw [h1]
  simp only [Bool.false_eq_true, if_false, hrows]
  rfl

/-- Witness for C9: one loaded source whose record has no prize rows. -/
theorem empty_consensus_raises_witness :
    postLoad [("s", ⟨some 1, none, [], []⟩)] [] ["s"] [] 0 =
      .error "No prize categories available after parsing all sources" :=
  empty_consensus_raises [("s", ⟨some 1, none, [], []⟩)] [] ["s"] [] 0
    (by simp) (by decide)

/-! Association-list and merge lemmas. -/

theorem alookup_append {β : Type} (k : String) (m₁ m₂ : List (String × β)) :
    alookup k (m₁ ++ m₂) =
      match alookup k m₁ with
      | some v => some v
      | none => alookup k m₂ := by
  induction m₁ with
  | nil => rfl
  | cons p rest ih =>
    by_cases h : p.1 = k
    · simp [alookup, h]
    · simp only [List.cons_append, alookup, h, if_false]
      exact ih

theorem alookup_eq_none_iff {β : Type} (k : String) (m : List (String × β)) :
    alookup k m = none ↔ k ∉ m.map Prod.fst := by
  induction m with
  | nil => simp [alookup]
  | cons p rest ih =>
    by_cases h : p.1 = k
    · simp [alookup, h]
    · simp [alookup, h, ih, Ne.symm h]

theorem alookup_setdefault_self (k : String) (v : Int) (m : List (String × Int))
    (h : alookup k m = none) : alookup k (setdefault m k v) = some v := by
  unfold setdefault
  rw [h]
  simp only [Option.isSome_none, Bool.false_eq_true, if_false]
  rw [alookup_append, h]
  simp [alookup]

theorem alookup_setdefault_keep (k k' : String) (v : Int) (m : List (String × Int))
    (w : Int) (h : alookup k m = some w) : alookup k (setdefault m k' v) = some w := by
  unfold setdefault
  split
  · exact h
  · rw [alookup_append, h]

theorem alookup_setdefault_ne (k k' : String) (v : Int) (m : List (String × Int))
    (h : k' ≠ k) : alookup k (setdefault m k' v) = alookup k m := by
  unfold setdefault
  split
  · rfl
  · rw [alookup_append]
    cases hm : alookup k m with
    | some w => rfl
    | none => simp [alookup, h]

theorem alookup_mergeOne_total (k : String) (hk : lowerStartsWithTotal k = true) :
    ∀ (montos m : List (String × Int)), alookup k (mergeOne m montos) = alookup k m
  | [], _ => rfl
  | p :: rest, m => by
    show alookup k
      (mergeOne (if lowerStartsWithTotal p.1 then m else setdefault m p.1 p.2) rest) = _
    by_cases hp : lowerStartsWithTotal p.1
    · rw [if_pos hp]
      exact alookup_mergeOne_total k hk rest m
    · rw [if_neg hp, alookup_mergeOne_total k hk rest _]
      apply alookup_setdefault_ne
      intro contra
      rw [contra, hk] at hp
      exact hp rfl

theorem alookup_mergeOne_keep (k : String) (w : Int) :
    ∀ (montos m : List (String × Int)), alookup k m = some w →
      alookup k (mergeOne m montos) = some w
  | [], _, h => h
  | p :: rest, m, h => by
    show alookup k
      (mergeOne (if lowerStartsWithTotal p.1 then m else setdefault m p.1 p.2) rest) = _
    by_cases hp : lowerStartsWithTotal p.1
    · rw [if_pos hp]
      exact alookup_mergeOne_keep k w rest m h
    · rw [if_neg hp]
      exact alookup_mergeOne_keep k w rest _ (alookup_setdefault_keep k p.1 p.2 m w h)

theorem alookup_mergeOne_new (k : String) (hk : lowerStartsWithTotal k = false) :
    ∀ (montos m : List (String × Int)), alookup k m = none →
      alookup k (mergeOne m montos) = alookup k montos
  | [], m, h => by
    show alookup k m = alookup k ([] : List (String × Int))
    rw [h]
    rfl
  | (a, b) :: rest, m, h => by
    show alookup k
      (mergeOne (if lowerStartsWithTotal a then m else setdefault m a b) rest) = _
    by_cases hp : lowerStartsWithTotal a
    · have hak : a ≠ k := by
        intro contra
        rw [contra, hk] at hp
        exact absurd hp (by simp)
      rw [if_pos hp, alookup_mergeOne_new k hk rest m h]
      simp [alookup, hak]
    · rw [if_neg hp]
      by_cases hak : a = k
      · subst hak
        have h1 : alookup a (setdefault m a b) = some b := alookup_setdefault_self a b m h
        rw [alookup_mergeOne_keep a b rest _ h1]
        simp [alookup]
      · have h1 : alookup k (setdefault m a b) = none := by
          rw [alookup_setdefault_ne k a b m hak]
          exact h
        rw [alookup_mergeOne_new k hk rest _ h1]
        simp [alookup, hak]

theorem alookup_fold_merge_total (k : String) (hk : lowerStartsWithTotal k = true) :
    ∀ (collected : List PozoPayload) (m : List (String × Int)),
      alookup k (collected.foldl (fun merged entry => mergeOne merged entry.montos) m) =
        alookup k m
  | [], _ => rfl
  | e :: rest, m => by
    rw [List.foldl_cons, alookup_fold_merge_total k hk rest _]
    exact alookup_mergeOne_total k hk e.montos m

theorem alookup_fold_merge (k : String) (hk : lowerStartsWithTotal k = false) :
    ∀ (collected : List PozoPayload) (m : List (String × Int)),
      alookup k (collected.foldl (fun merged entry => mergeOne merged entry.montos) m) =
        match alookup k m with
        | some w => some w
        | none => (collected.filterMap (fun e => alookup k e.montos)).head?
  | [], m => by cases h : alookup k m <;> simp [h]
  | e :: rest, m => by
    rw [List.foldl_cons]
    cases h : alookup k m with
    | some w =>
      rw [alookup_fold_merge k hk rest _,
        alookup_mergeOne_keep k w e.montos m h]
    | none =>
      have h1 : alookup k (mergeOne m e.montos) = alookup k e.montos :=
        alookup_mergeOne_new k hk e.montos m h
      rw [alookup_fold_merge k hk rest _, h1]
      cases h2 : alookup k e.montos with
      | some w => simp [List.filterMap_cons, h2]
      | none => simp [List.filterMap_cons, h2]

/-- C10: the merged jackpot map excludes every category whose lowercased
name starts with "total"; a (non-excluded) category reported by more than
one source gets the value of the earliest source in the collection that
reports it (the primary source's value wins). -/
theorem merge_pozos_spec (collected : List PozoPayload) :
    (∀ k : String, lowerStartsWithTotal k = true →
      alookup k (mergePozos collected) = none) ∧
    (∀ k : String, lowerStartsWithTotal k = false →
      2 ≤ collected.countP (fun e => (alookup k e.montos).isSome) →
      alookup k (mergePozos collected) =
        (collected.filterMap (fun e => alookup k e.montos)).head?) := by
  constructor
  · intro k hk
    unfold mergePozos
    rw [alookup_fold_merge_total k hk collected []]
    rfl
  · intro k hk _
    unfold mergePozos
    rw [alookup_fold_merge k hk collected []]
    rfl

/-- Witness for C10: the "Total Estimado" row is excluded; `Loto`, reported
by both sources, keeps the primary's value 100. -/
theorem merge_pozos_spec_witness :
    alookup "Total Estimado" (mergePozos wCollected) = none ∧
    alookup "Loto" (mergePozos wCollected) = some 100 := by
  refine ⟨(merge_pozos_spec wCollected).1 "Total Estimado" (by decide), ?_⟩
  have h := (merge_pozos_spec wCollected).2 "Loto" (by decide) (by decide)
  rw [h]
  decide

/-! Nodup keys of the merged pozos and dict reflexivity. -/

theorem setdefault_keys_nodup (m : List (String × Int)) (k : String) (v : Int)
    (h : (m.map Prod.fst).Nodup) : ((setdefault m k v).map Prod.fst).Nodup := by
  unfold setdefault
  split
  · exact h
  next hs =>
    rw [List.map_append]
    refine List.Nodup.append h (by simp) ?_
    intro x hx hx2
    simp only [List.map_cons, List.map_nil, List.mem_singleton] at hx2
    subst hx2
    have hnone : alookup x m = none := by
      cases ha : alookup x m with
      | none => rfl
      | some w => rw [ha] at hs; exact absurd rfl hs
    exact absurd hx ((alookup_eq_none_iff x m).mp hnone)

theorem mergeOne_keys_nodup :
    ∀ (montos m : List (String × Int)), (m.map Prod.fst).Nodup →
      ((mergeOne m montos).map Prod.fst).Nodup
  | [], _, h => h
  | p :: rest, m, h => by
    show ((mergeOne
      (if lowerStartsWithTotal p.1 then m else setdefault m p.1 p.2) rest).map Prod.fst).Nodup
    by_cases hp : lowerStartsWithTotal p.1
    · rw [if_pos hp]
      exact mergeOne_keys_nodup rest m h
    · rw [if_neg hp]
      exact mergeOne_keys_nodup rest _ (setdefault_keys_nodup m p.1 p.2 h)

theorem mergePozos_keys_nodup (collected : List PozoPayload) :
    ((mergePozos collected).map Prod.fst).Nodup := by
  suffices h : ∀ (cs : List PozoPayload) (m : List (String × Int)),
      (m.map Prod.fst).Nodup →
      ((cs.foldl (fun merged entry => mergeOne merged entry.montos) m).map Prod.fst).Nodup by
    exact h collected [] (by simp)
  intro cs
  induction cs with
  | nil => exact fun m h => h
  | cons e rest ih =>
    intro m h
    rw [List.foldl_cons]
    exact ih _ (mergeOne_keys_nodup e.montos m h)

theorem alookup_self {β : Type} :
    ∀ (m : List (String × β)), (m.map Prod.fst).Nodup → ∀ p ∈ m, alookup p.1 m = some p.2
  | [], _, p, hp => absurd hp (by simp)
  | q :: rest, h, p, hp => by
    rcases List.mem_cons.mp hp with rfl | hp'
    · simp [alookup]
    · have hq : ¬ q.1 = p.1 := by
        intro contra
        rw [List.map_cons, List.nodup_cons] at h
        refine h.1 ?_
        rw [contra]
        exact List.mem_map_of_mem Prod.fst hp'
      simp only [alookup, hq, if_false]
      rw [List.map_cons, List.nodup_cons] at h
      exact alookup_self rest h.2 p hp'

theorem dictEq_refl (m : List (String × Int)) (h : (m.map Prod.fst).Nodup) :
    dictEq m m = true := by
  unfold dictEq
  rw [Bool.and_self, List.all_eq_true]
  intro p hp
  simp only [decide_eq_true_eq]
  exact alookup_self m h p hp

theorem compareWithPrevious_self (r : DrawRecord) (s : Int) (h : r.sorteo = some s) :
    compareWithPrevious r [r] = false := by
  unfold compareWithPrevious
  rw [h]
  simp [compareLoop, h]

/-- C7: in pozos-only mode a merged record identical (sorteo, fecha and
per-category amounts) to the persisted state record yields decision `skip`
with `publish = false`; anything else yields `publish` with `publish =
true`; with `force_publish` set an unchanged record yields
`publish_forced` with `publish = true`.  The pipeline persists a
single-record state file, so `previous` has at most one record. -/
theorem pozos_change_decision (collected : List PozoPayload)
    (previous : List DrawRecord) (forcePublish : Bool)
    (primary : PozoPayload) (rest : List PozoPayload)
    (hc : collected = primary :: rest) (hprev : previous.length ≤ 1) :
    ∃ s o, runPozos collected previous forcePublish = .ok (s, o) ∧
      ((forcePublish = false → pozosIdentical collected primary previous →
          s.decisionStatus = "skip" ∧ s.publish = false) ∧
       (¬ pozosIdentical collected primary previous →
          s.decisionStatus = "publish" ∧ s.publish = true) ∧
       (forcePublish = true → pozosIdentical collected primary previous →
          s.decisionStatus = "publish_forced" ∧ s.publish = true)) := by
  subst hc
  have key : pozosUnchanged previous primary (mergePozos (primary :: rest)) = true ↔
      pozosIdentical (primary :: rest) primary previous := by
    unfold pozosUnchanged pozosIdentical
    rcases previous with _ | ⟨q, _ | ⟨b, t⟩⟩
    · simp
    · by_cases hsq : q.sorteo = primary.sorteo
      · by_cases hfq : q.fecha = primary.fecha
        · rw [List.find?_cons_of_pos _ (by simp [hsq, hfq])]
          constructor
          · intro hd
            exact ⟨q, List.mem_singleton_self q, hsq, hfq, hd⟩
          · rintro ⟨p, hp, hps, hpf, hpd⟩
            rw [List.mem_singleton] at hp
            subst hp
            exact hpd
        · rw [List.find?_cons_of_neg _ (by simp [hfq]), List.find?_nil]
          constructor
          · intro hcontra
            exact absurd hcontra (by simp)
          · rintro ⟨p, hp, hps, hpf, hpd⟩
            rw [List.mem_singleton] at hp
            subst hp
            exact absurd hpf hfq
      · rw [List.find?_cons_of_neg _ (by simp [hsq]), List.find?_nil]
        constructor
        · intro hcontra
          exact absurd hcontra (by simp)
        · rintro ⟨p, hp, hps, hpf, hpd⟩
          rw [List.mem_singleton] at hp
          subst hp
          exact absurd hps hsq
    · exfalso
      simp only [List.length_cons] at hprev
      omega
  by_cases hid : pozosIdentical (primary :: rest) primary previous
  · have hu := key.mpr hid
    refine ⟨_, _, rfl, ?_, ?_, ?_⟩
    · intro hf _
      subst hf
      exact ⟨by simp [hu], by simp [hu]⟩
    · intro hid2
      exact absurd hid hid2
    · intro hf _
      subst hf
      exact ⟨by simp [hu], by simp [hu]⟩
  · have hu : pozosUnchanged previous primary (mergePozos (primary :: rest)) = false := by
      rcases Bool.eq_false_or_eq_true
          (pozosUnchanged previous primary (mergePozos (primary :: rest))) with hb | hb
      · exact absurd (key.mp hb) hid
      · exact hb
    refine ⟨_, _, rfl, ?_, ?_, ?_⟩
    · intro _ hid2
      exact absurd hid2 hid
    · intro _
      exact ⟨by simp [hu], by simp [hu]⟩
    · intro _ hid2
      exact absurd hid2 hid

/-! Retry loop lemmas (C5). -/

theorem tryUrlGo_ok (outcome : Nat → Except String DrawRecord) (retries attempt fuel : Nat)
    (r : DrawRecord) (h : outcome attempt = .ok r) :
    tryUrlGo outcome retries attempt fuel = (some r, attempt + 1, []) := by
  cases fuel <;> simp only [tryUrlGo, h]

theorem tryUrlGo_err_stop (outcome : Nat → Except String DrawRecord)
    (retries attempt fuel : Nat) (e : String) (h : outcome attempt = .error e)
    (hstop : retries ≤ attempt + 1) :
    tryUrlGo outcome retries attempt fuel = (none, attempt + 1, []) := by
  cases fuel <;> simp only [tryUrlGo, h, if_pos hstop]

theorem tryUrlGo_err_next (outcome : Nat → Except String DrawRecord)
    (retries attempt fuel : Nat) (e : String) (h : outcome attempt = .error e)
    (hlt : attempt + 1 < retries) :
    tryUrlGo outcome retries attempt (fuel + 1) =
      ((tryUrlGo outcome retries (attempt + 1) fuel).1,
       (tryUrlGo outcome retries (attempt + 1) fuel).2.1,
       min (2 * (attempt + 1)) 10 :: (tryUrlGo outcome retries (attempt + 1) fuel).2.2) := by
  simp only [tryUrlGo, h, if_neg (by omega : ¬ retries ≤ attempt + 1)]

theorem tryUrlGo_spec (outcome : Nat → Except String DrawRecord) (retries : Nat) :
    ∀ (fuel attempt : Nat) (res : Option DrawRecord) (n : Nat) (sleeps : List Nat),
      retries ≤ attempt + 1 + fuel →
      tryUrlGo outcome retries attempt fuel = (res, n, sleeps) →
      attempt + 1 ≤ n ∧ n ≤ max retries (attempt + 1) ∧
      sleeps = (List.range' (attempt + 1) (n - (attempt + 1))).map (fun k => min (2 * k) 10) ∧
      (∀ r, res = some r → outcome (n - 1) = .ok r) ∧
      (∀ k, attempt ≤ k → k + 1 < n → ∃ e, outcome k = .error e) ∧
      (res = none → (∀ k, attempt ≤ k → k < n → ∃ e, outcome k = .error e) ∧
        n = max retries (attempt + 1)) := by
  intro fuel
  induction fuel with
  | zero =>
    intro attempt res n sleeps hle heq
    cases ho : outcome attempt with
    | ok r =>
      rw [tryUrlGo_ok outcome retries attempt 0 r ho] at heq
      injection heq with h1 h23
      injection h23 with h2 h3
      subst h1 h2 h3
      refine ⟨le_refl _, le_max_right _ _, by simp, ?_, ?_, ?_⟩
      · intro r' hr'
        injection hr' with hr'
        subst hr'
        have hn : attempt + 1 - 1 = attempt := by omega
        rw [hn]
        exact ho
      · intro k hk hk2
        exact absurd hk2 (by omega)
      · intro hcontra
        exact absurd hcontra (by simp)
    | error e =>
      have hstop : retries ≤ attempt + 1 := by omega
      rw [tryUrlGo_err_stop outcome retries attempt 0 e ho hstop] at heq
      injection heq with h1 h23
      injection h23 with h2 h3
      subst h1 h2 h3
      refine ⟨le_refl _, le_max_right _ _, by simp, ?_, ?_, ?_⟩
      · intro r' hr'
        exact absurd hr' (by simp)
      · intro k hk hk2
        exact absurd hk2 (by omega)
      · intro _
        refine ⟨?_, (Nat.max_eq_right hstop).symm⟩
        intro k hk hk2
        have hkeq : k = attempt := by omega
        subst hkeq
        exact ⟨e, ho⟩
  | succ fuel ih =>
    intro attempt res n sleeps hle heq
    cases ho : outcome attempt with
    | ok r =>
      rw [tryUrlGo_ok outcome retries attempt (fuel + 1) r ho] at heq
      injection heq with h1 h23
      injection h23 with h2 h3
      subst h1 h2 h3
      refine ⟨le_refl _, le_max_right _ _, by simp, ?_, ?_, ?_⟩
      · intro r' hr'
        injection hr' with hr'
        subst hr'
        have hn : attempt + 1 - 1 = attempt := by omega
        rw [hn]
        exact ho
      · intro k hk hk2
        exact absurd hk2 (by omega)
      · intro hcontra
        exact absurd hcontra (by simp)
    | error e =>
      by_cases hstop : retries ≤ attempt + 1
      · rw [tryUrlGo_err_stop outcome retries attempt (fuel + 1) e ho hstop] at heq
        injection heq with h1 h23
        injection h23 with h2 h3
        subst h1 h2 h3
        refine ⟨le_refl _, le_max_right _ _, by simp, ?_, ?_, ?_⟩
        · intro r' hr'
          exact absurd hr' (by simp)
        · intro k hk hk2
          exact absurd hk2 (by omega)
        · intro _
          refine ⟨?_, (Nat.max_eq_right hstop).symm⟩
          intro k hk hk2
          have hkeq : k = attempt := by omega
          subst hkeq
          exact ⟨e, ho⟩
      · have hlt : attempt + 1 < retries := by omega
        rw [tryUrlGo_err_next outcome retries attempt fuel e ho hlt] at heq
        injection heq with h1 h23
        injection h23 with h2 h3
        subst h1 h2 h3
        have hrec := ih (attempt + 1) (tryUrlGo outcome retries (attempt + 1) fuel).1
          (tryUrlGo outcome retries (attempt + 1) fuel).2.1
          (tryUrlGo outcome retries (attempt + 1) fuel).2.2 (by omega) rfl
        obtain ⟨ha1, ha2, ha3, ha4, ha5, ha6⟩ := hrec
        have hmax2 : max retries (attempt + 1 + 1) = retries := Nat.max_eq_left (by omega)
        have hmax1 : max retries (attempt + 1) = retries := Nat.max_eq_left (by omega)
        refine ⟨by omega, by omega, ?_, ha4, ?_, ?_⟩
        · have hd : (tryUrlGo outcome retries (attempt + 1) fuel).2.1 - (attempt + 1) =
              ((tryUrlGo outcome retries (attempt + 1) fuel).2.1 - (attempt + 1 + 1)) + 1 := by
            omega
          rw [hd, List.range'_succ (attempt + 1) _ 1, List.map_cons, ← ha3]
        · intro k hk hk2
          rcases Nat.eq_or_lt_of_le hk with hkeq | hklt
          · subst hkeq
            exact ⟨e, ho⟩
          · exact ha5 k (by omega) hk2
        · intro hnone
          obtain ⟨hb1, hb2⟩ := ha6 hnone
          refine ⟨?_, by omega⟩
          intro k hk hk2
          rcases Nat.eq_or_lt_of_le hk with hkeq | hklt
          · subst hkeq
            exact ⟨e, ho⟩
          · exact hb1 k (by omega) hk2

/-- C5: for one URL, the retry loop makes at least one and at most
`max retries 1` loader calls (so at most `retries` when `retries ≥ 1`, and
at most `retries - 1` retries after the first attempt), sleeps
`min(2 * attempt_number, 10)` seconds between consecutive attempts, stops
at the first successful call, and retries only after a loader exception:
every non-final call raised, and when the result is `none` every call
raised and exactly `max retries 1` calls were made. -/
theorem retry_backoff_spec (outcome : Nat → Except String DrawRecord) (retries : Nat)
    (res : Option DrawRecord) (n : Nat) (sleeps : List Nat)
    (h : tryUrl outcome retries = (res, n, sleeps)) :
    1 ≤ n ∧ n ≤ max retries 1 ∧
    sleeps = (List.range' 1 (n - 1)).map (fun k => min (2 * k) 10) ∧
    (∀ r, res = some r → outcome (n - 1) = .ok r) ∧
    (∀ k, k + 1 < n → ∃ e, outcome k = .error e) ∧
    (res = none → (∀ k, k < n → ∃ e, outcome k = .error e) ∧ n = max retries 1) := by
  have hs := tryUrlGo_spec outcome retries retries 0 res n sleeps (by omega) h
  obtain ⟨h1, h2, h3, h4, h5, h6⟩ := hs
  refine ⟨h1, h2, h3, h4, ?_, ?_⟩
  · intro k hk
    exact h5 k (Nat.zero_le k) hk
  · intro hnone
    obtain ⟨hb1, hb2⟩ := h6 hnone
    exact ⟨fun k hk => hb1 k (Nat.zero_le k) hk, hb2⟩

/-- Witness for C5: an outcome that raises twice then parses, with
`retries = 5`: three calls, sleeps 2 and 4 seconds, stops on success. -/
theorem retry_backoff_spec_witness :
    1 ≤ 3 ∧ 3 ≤ max 5 1 ∧
    ([2, 4] : List Nat) = (List.range' 1 (3 - 1)).map (fun k => min (2 * k) 10) ∧
    (∀ r, (some wRecord : Option DrawRecord) = some r → wOutcome (3 - 1) = .ok r) ∧
    (∀ k, k + 1 < 3 → ∃ e, wOutcome k = .error e) ∧
    ((some wRecord : Option DrawRecord) = none →
      (∀ k, k < 3 → ∃ e, wOutcome k = .error e) ∧ 3 = max 5 1) :=
  retry_backoff_spec wOutcome 5 (some wRecord) 3 [2, 4] (by decide)

/-- Witness for C7: the pozos run against its own persisted record skips
without publishing. -/
theorem pozos_change_decision_witness :
    (runPozos wCollected [wPozoState] false).map
        (fun p => (p.1.decisionStatus, p.1.publish)) = .ok ("skip", false) := by
  obtain ⟨s, o, heq, h1, _, _⟩ :=
    pozos_change_decision wCollected [wPozoState] false _ _ rfl (by simp)
  rw [heq]
  obtain ⟨hs, hp⟩ := h1 rfl (by decide)
  simp [Except.map, hs, hp]

/-! Zero-sources handling (C4) and the decision boundary (C3). -/

/-- C4 counterexample: with `fail_fast` set and one failing source the run
raises even though zero sources produced a `SourceResult`; the same specs
with `fail_fast` unset produce zero results without raising, showing the
run is in the claim's scope. -/
theorem zero_sources_counterexample :
    runPipelineModel [wSpecBad] 1 true [] 0 =
      .error "Failed to load any URL for source s" ∧
    loadSources [wSpecBad] 1 false =
      .ok ([], [⟨"s", some "u", "All candidate URLs failed"⟩]) :=
  ⟨rfl, rfl⟩

/-- C4 (amended): with `fail_fast` unset, a run in which zero sources
produce a `SourceResult` does not raise: it returns a quarantine summary
with `publish = false`, and the normalized output, state file, comparison
report and summary artifacts are all written (empty where applicable). -/
theorem zero_sources_quarantine (specs : List SourceSpec) (retries : Nat)
    (previous : List DrawRecord) (threshold : ℚ) (fs : List Failure)
    (h : loadSources specs retries false = .ok ([], fs)) :
    ∃ s o, runPipelineModel specs retries false previous threshold = .ok (s, o) ∧
      s.decisionStatus = "quarantine" ∧ s.publish = false ∧ s.prizesChanged = false ∧
      o.normalized = some [] ∧ o.state = some [] ∧ o.report.isSome = true ∧
      o.summaryFile = some s := by
  unfold runPipelineModel
  rw [h]
  unfold postLoad
  exact ⟨_, _, rfl, rfl, rfl, rfl, rfl, rfl, rfl, rfl⟩

/-- Witness for C4 (amended): one source whose URLs all fail, without
`fail_fast`. -/
theorem zero_sources_quarantine_witness :
    ∃ s o, runPipelineModel [wSpecBad] 1 false [] 0 = .ok (s, o) ∧
      s.decisionStatus = "quarantine" ∧ s.publish = false ∧ s.prizesChanged = false ∧
      o.normalized = some [] ∧ o.state = some [] ∧ o.report.isSome = true ∧
      o.summaryFile = some s :=
  zero_sources_quarantine [wSpecBad] 1 [] 0
    [⟨"s", some "u", "All candidate URLs failed"⟩] rfl

/-- The mismatch ratio of `_build_consensus` in terms of its rows and
mismatches. -/
theorem ratio_eq (m : SourceMap) :
    (buildConsensus m).2.2 = if (buildConsensus m).1.isEmpty then 0
      else ((buildConsensus m).2.1.length : ℚ) / ((buildConsensus m).1.length : ℚ) := rfl

/-- C3: the decision of the multi-source draw path (the threshold, a bound
on a ratio, is taken nonnegative): zero mismatches publish; a positive
mismatch count with ratio at most the threshold (boundary inclusive)
publishes with warnings; a ratio strictly above the threshold
quarantines. -/
theorem decision_boundary (results : List (String × DrawRecord)) (failures : List Failure)
    (requested : List String) (previous : List DrawRecord) (threshold : ℚ)
    (s : Summary) (o : Outputs)
    (ht : 0 ≤ threshold) (hne : results ≠ [])
    (h : postLoad results failures requested previous threshold = .ok (s, o)) :
    ((buildConsensus (viewsOf results)).2.1.length = 0 → s.decisionStatus = "publish") ∧
    (0 < (buildConsensus (viewsOf results)).2.1.length →
      (buildConsensus (viewsOf results)).2.2 ≤ threshold →
      s.decisionStatus = "publish_with_warnings") ∧
    (threshold < (buildConsensus (viewsOf results)).2.2 →
      s.decisionStatus = "quarantine") := by
  have hempty : results.isEmpty = false := by
    cases results with
    | nil => exact absurd rfl hne
    | cons a l => rfl
  unfold postLoad at h
  simp only [hempty, Bool.false_eq_true, if_false] at h
  by_cases hrows : (buildConsensus (viewsOf results)).1.isEmpty
  · simp only [hrows, if_true] at h
    exact absurd h (by simp)
  · have hrowsf : (buildConsensus (viewsOf results)).1.isEmpty = false :=
      Bool.eq_false_iff.mpr hrows
    simp only [hrowsf, Bool.false_eq_true, if_false] at h
    injection h with h'
    injection h' with hs ho
    subst hs
    refine ⟨?_, ?_, ?_⟩
    · intro hc
      show decideStatus (buildConsensus (viewsOf results)).2.1.length
        (buildConsensus (viewsOf results)).2.2 threshold = "publish"
      unfold decideStatus
      rw [if_pos hc]
    · intro hc hr
      show decideStatus (buildConsensus (viewsOf results)).2.1.length
        (buildConsensus (viewsOf results)).2.2 threshold = "publish_with_warnings"
      unfold decideStatus
      rw [if_neg (by omega), if_pos hr]
    · intro hr
      have hcount : (buildConsensus (viewsOf results)).2.1.length ≠ 0 := by
        intro hc0
        have hzero : (buildConsensus (viewsOf results)).2.2 = 0 := by
          rw [ratio_eq]
          simp only [hrowsf, Bool.false_eq_true, if_false, hc0]
          simp
        rw [hzero] at hr
        exact absurd hr (not_lt.mpr ht)
      show decideStatus (buildConsensus (viewsOf results)).2.1.length
        (buildConsensus (viewsOf results)).2.2 threshold = "quarantine"
      unfold decideStatus
      rw [if_neg hcount, if_neg (not_le.mpr hr)]

/-- Witness for C3: a clean single-source consensus publishes. -/
theorem decision_boundary_witness :
    (⟨"publish", true, true, 2, 0⟩ : Summary).decisionStatus = "publish" :=
  (decision_boundary [("s", wRecord)] [] ["s"] [] 0
      ⟨"publish", true, true, 2, 0⟩
      ⟨some [wRecord], some [wRecord], some ⟨"publish", 2, 0, true, [], []⟩,
        some ⟨"publish", true, true, 2, 0⟩⟩
      (by norm_num) (by simp) rfl).1 (by decide)

/-! Idempotence of a re-run (C1). -/

/-- C1 counterexample: running the multi-source path twice on
byte-identical content (the second run reading the state the first run
wrote) gives `prizes_changed = false` but `publish = true` with decision
`publish` on the second run — the decision is recomputed from mismatches
only, so `publish` does not become `false`. -/
theorem idempotent_rerun_counterexample :
    (runPipelineModel [wSpecOk] 1 false [] 0).map (fun p => p.2.state) =
      .ok (some [wRecord]) ∧
    (runPipelineModel [wSpecOk] 1 false [wRecord] 0).map
        (fun p => (p.1.prizesChanged, p.1.publish, p.1.decisionStatus)) =
      .ok (false, true, "publish") :=
  ⟨rfl, rfl⟩

/-- C1 (amended): re-running against byte-identical source content
(identical loaded results, the second run reading the state written by the
first): the second run's summary always has `prizes_changed = false`; in
the pozos-only path the second run's decision is `skip` with
`publish = false`; in the multi-source path the decision status and the
publish flag are recomputed from the mismatches alone and keep their
first-run values (`publish` stays `true` when the consensus publishes). -/
theorem idempotent_rerun :
    (∀ (results : List (String × DrawRecord)) (failures : List Failure)
        (requested : List String) (previous st : List DrawRecord) (threshold : ℚ)
        (s₁ s₂ : Summary) (o₁ o₂ : Outputs),
      postLoad results failures requested previous threshold = .ok (s₁, o₁) →
      o₁.state = some st →
      postLoad results failures requested st threshold = .ok (s₂, o₂) →
      s₂.prizesChanged = false ∧ s₂.decisionStatus = s₁.decisionStatus ∧
        s₂.publish = s₁.publish) ∧
    (∀ (collected : List PozoPayload) (previous st : List DrawRecord) (force : Bool)
        (s₁ s₂ : Summary) (o₁ o₂ : Outputs),
      runPozos collected previous force = .ok (s₁, o₁) →
      o₁.state = some st →
      runPozos collected st false = .ok (s₂, o₂) →
      s₂.decisionStatus = "skip" ∧ s₂.publish = false ∧ s₂.prizesChanged = false) := by
  constructor
  · intro results failures requested previous st threshold s₁ s₂ o₁ o₂ h1 hst h2
    by_cases hempty : results.isEmpty
    · unfold postLoad at h1 h2
      rw [if_pos hempty] at h1
      rw [if_pos hempty] at h2
      injection h1 with h1'
      injection h1' with hs1 ho1
      injection h2 with h2'
      injection h2' with hs2 ho2
      subst hs1
      subst hs2
      exact ⟨rfl, rfl, rfl⟩
    · have hemp : results.isEmpty = false := Bool.eq_false_iff.mpr hempty
      unfold postLoad at h1 h2
      simp only [hemp, Bool.false_eq_true, if_false] at h1 h2
      by_cases hrows : (buildConsensus (viewsOf results)).1.isEmpty
      · simp only [hrows, if_true] at h1
        exact absurd h1 (by simp)
      · have hrowsf : (buildConsensus (viewsOf results)).1.isEmpty = false :=
          Bool.eq_false_iff.mpr hrows
        simp only [hrowsf, Bool.false_eq_true, if_false] at h1 h2
        injection h1 with h1'
        injection h1' with hs1 ho1
        injection h2 with h2'
        injection h2' with hs2 ho2
        subst hs1
        subst hs2
        subst ho1
        injection hst with hst'
        subst hst'
        refine ⟨?_, rfl, rfl⟩
        show compareWithPrevious
          ⟨some (maxSorteo results), maxFecha results,
            (buildConsensus (viewsOf results)).1, []⟩
          [⟨some (maxSorteo results), maxFecha results,
            (buildConsensus (viewsOf results)).1, []⟩] = false
        exact compareWithPrevious_self _ (maxSorteo results) rfl
  · intro collected previous st force s₁ s₂ o₁ o₂ h1 hst h2
    cases collected with
    | nil => exact absurd h1 (by simp [runPozos])
    | cons primary rest =>
      simp only [runPozos] at h1 h2
      injection h1 with h1'
      injection h1' with hs1 ho1
      injection h2 with h2'
      injection h2' with hs2 ho2
      subst hs1
      subst hs2
      subst ho1
      injection hst with hst'
      subst hst'
      have hu : pozosUnchanged
          [⟨primary.sorteo, primary.fecha, [], mergePozos (primary :: rest)⟩]
          primary (mergePozos (primary :: rest)) = true := by
        unfold pozosUnchanged
        rw [List.find?_cons_of_pos _ (by simp)]
        exact dictEq_refl _ (mergePozos_keys_nodup _)
      refine ⟨?_, ?_, ?_⟩ <;> simp [hu]

/-- Witness for C1 (amended), multi-source part: a second run over the
state written by the first keeps the publish decision and reports
`prizes_changed = false`. -/
theorem idempotent_rerun_witness :
    (⟨"publish", false, true, 2, 0⟩ : Summary).prizesChanged = false ∧
    (⟨"publish", false, true, 2, 0⟩ : Summary).decisionStatus =
      (⟨"publish", true, true, 2, 0⟩ : Summary).decisionStatus ∧
    (⟨"publish", false, true, 2, 0⟩ : Summary).publish =
      (⟨"publish", true, true, 2, 0⟩ : Summary).publish :=
  idempotent_rerun.1 [("s", wRecord)] [] ["s"] [] [wRecord] 0
    ⟨"publish", true, true, 2, 0⟩ ⟨"publish", false, true, 2, 0⟩
    ⟨some [wRecord], some [wRecord], some ⟨"publish", 2, 0, true, [], []⟩,
      some ⟨"publish", true, true, 2, 0⟩⟩
    ⟨some [wRecord], some [wRecord], some ⟨"publish", 2, 0, false, [], []⟩,
      some ⟨"publish", false, true, 2, 0⟩⟩
    rfl rfl rfl

/-! Majority-count lemmas (C8, C2). -/

theorem le_foldr_max {a : Nat} {l : List Nat} (h : a ∈ l) (b : Nat) : a ≤ l.foldr max b := by
  induction l with
  | nil => cases h
  | cons x xs ih =>
    rw [List.foldr_cons]
    rcases List.mem_cons.mp h with rfl | h'
    · exact le_max_left _ _
    · exact le_trans (ih h') (le_max_right _ _)

theorem foldr_max_mem (l : List Nat) : l.foldr max 0 = 0 ∨ l.foldr max 0 ∈ l := by
  induction l with
  | nil => exact Or.inl rfl
  | cons x xs ih =>
    rw [List.foldr_cons]
    rcases Nat.le_total x (xs.foldr max 0) with h | h
    · rw [Nat.max_eq_right h]
      rcases ih with h0 | hmem
      · exact Or.inl h0
      · exact Or.inr (List.mem_cons_of_mem x hmem)
    · rw [Nat.max_eq_left h]
      exact Or.inr (List.mem_cons_self x xs)

theorem count_le_maxCount {vals : List CategoryAmount} {v : CategoryAmount} (h : v ∈ vals) :
    vals.count v ≤ maxCount vals :=
  le_foldr_max (List.mem_map_of_mem (fun w => vals.count w) h) 0

theorem maxCount_attained {vals : List CategoryAmount} (h : vals ≠ []) :
    ∃ v ∈ vals, vals.count v = maxCount vals := by
  rcases foldr_max_mem (vals.map (fun v => vals.count v)) with h0 | hmem
  · exfalso
    cases vals with
    | nil => exact h rfl
    | cons x xs =>
      have h1 : (x :: xs).count x = xs.count x + 1 := List.count_cons_self x xs
      have h2 := count_le_maxCount (List.mem_cons_self x xs)
      have h0' : maxCount (x :: xs) = 0 := h0
      omega
  · obtain ⟨v, hv, hcnt⟩ := List.mem_map.mp hmem
    exact ⟨v, hv, hcnt⟩

theorem mostCommon_spec {vals : List CategoryAmount} {mv : CategoryAmount} {s : Nat}
    (h : mostCommon vals = some (mv, s)) :
    mv ∈ vals ∧ vals.count mv = maxCount vals ∧ s = vals.count mv := by
  unfold mostCommon at h
  cases hf : vals.find? (fun v => vals.count v == maxCount vals) with
  | none =>
    rw [hf] at h
    exact absurd h (by simp)
  | some w =>
    rw [hf] at h
    injection h with h'
    injection h' with h1 h2
    subst h1
    subst h2
    refine ⟨List.mem_of_find?_eq_some hf, ?_, rfl⟩
    have hp := List.find?_some hf
    simpa using hp

theorem mostCommon_isSome {vals : List CategoryAmount} (h : vals ≠ []) :
    ∃ mv s, mostCommon vals = some (mv, s) := by
  obtain ⟨v, hv, hcnt⟩ := maxCount_attained h
  have hfind : (vals.find? (fun w => vals.count w == maxCount vals)).isSome := by
    rw [List.find?_isSome]
    exact ⟨v, hv, by simp [hcnt]⟩
  obtain ⟨w, hw⟩ := Option.isSome_iff_exists.mp hfind
  refine ⟨w, vals.count w, ?_⟩
  unfold mostCommon
  rw [hw]
  rfl

theorem count_append_singleton (l : List CategoryAmount) (v w : CategoryAmount) :
    (l ++ [v]).count w = l.count w + if w = v then 1 else 0 := by
  rw [List.count_append]
  by_cases h : w = v
  · subst h
    simp
  · simp [List.count_singleton', h]

theorem maxCount_append_singleton (l : List CategoryAmount) (v : CategoryAmount) :
    maxCount (l ++ [v]) ≤ maxCount l + 1 := by
  obtain ⟨w, hw, hcnt⟩ := maxCount_attained (by simp : (l ++ [v] : List CategoryAmount) ≠ [])
  rw [← hcnt, count_append_singleton]
  have h2 : l.count w ≤ maxCount l := by
    by_cases hmem : w ∈ l
    · exact count_le_maxCount hmem
    · rw [List.count_eq_zero_of_not_mem hmem]
      exact Nat.zero_le _
  by_cases h : w = v
  · subst h
    rw [if_pos rfl]
    omega
  · rw [if_neg h]
    omega

theorem valuesAt_append (m₁ m₂ : SourceMap) (c : String) :
    valuesAt (m₁ ++ m₂) c = valuesAt m₁ c ++ valuesAt m₂ c := by
  unfold valuesAt
  exact List.filterMap_append _ _ _

theorem mem_sortedCategories_append (m : SourceMap) (n : String) (rows : CatMap)
    (c : String) (v : CategoryAmount) (hv : alookup c rows = some v) :
    c ∈ sortedCategories (m ++ [(n, rows)]) := by
  unfold sortedCategories
  rw [(List.perm_insertionSort strLe _).mem_iff, List.mem_dedup, List.mem_flatMap]
  refine ⟨(n, rows), by simp, ?_⟩
  have hne : ¬ (alookup c rows = none) := by
    rw [hv]
    simp
  rw [alookup_eq_none_iff] at hne
  exact not_not.mp hne

theorem filter_ne_length (l : List (String × CategoryAmount)) (w : CategoryAmount) :
    (l.filter (fun p => p.2 ≠ w)).length + (l.map Prod.snd).count w = l.length := by
  induction l with
  | nil => rfl
  | cons p rest ih =>
    rw [List.filter_cons, List.map_cons, List.count_cons]
    by_cases hp : p.2 = w
    · have hd : (decide (p.2 ≠ w)) = false := by simp [hp]
      have hb : (p.2 == w) = true := by simp [hp]
      rw [hd, hb, if_pos rfl]
      simp only [Bool.false_eq_true, if_false, List.length_cons]
      omega
    · have hd : (decide (p.2 ≠ w)) = true := by simp [hp]
      have hb : (p.2 == w) = false := by simp [hp]
      rw [hd, hb, if_pos rfl]
      simp only [Bool.false_eq_true, if_false, List.length_cons]
      omega

/-- C8: adding one more source whose reported value for a category
disagrees with the category's current majority keeps that category in
`mismatches` (the entry is never removed) and never decreases the number
of sources recorded as disagreeing for it. -/
theorem mismatch_monotonicity (m : SourceMap) (c n : String) (rows : CatMap)
    (v mv : CategoryAmount) (s : Nat)
    (hv : alookup c rows = some v)
    (hm : majorityAt m c = some (mv, s))
    (hne : v ≠ mv) :
    c ∈ ((buildConsensus (m ++ [(n, rows)])).2.1.map Mismatch.categoria) ∧
    disagreeCount m c ≤ disagreeCount (m ++ [(n, rows)]) c := by
  have hvals1 : valuesAt [(n, rows)] c = [(n, v)] := by
    simp [valuesAt, hv]
  have hvals' : valsOf (m ++ [(n, rows)]) c = valsOf m c ++ [v] := by
    unfold valsOf
    rw [valuesAt_append, List.map_append, hvals1]
    rfl
  have hnonempty : valsOf (m ++ [(n, rows)]) c ≠ [] := by
    rw [hvals']
    simp
  obtain ⟨mv', s', hm'⟩ := mostCommon_isSome hnonempty
  have hm'' : majorityAt (m ++ [(n, rows)]) c = some (mv', s') := hm'
  have hmv_mem : mv ∈ valsOf m c := (mostCommon_spec hm).1
  have hdis_ne : disagreeingAt (m ++ [(n, rows)]) c ≠ [] := by
    unfold disagreeingAt
    rw [hm'']
    by_cases hcase : mv' = mv
    · have hmem : (n, v) ∈ valuesAt (m ++ [(n, rows)]) c := by
        rw [valuesAt_append, hvals1]
        exact List.mem_append_right _ (List.mem_singleton_self _)
      have hmemf : (n, v) ∈ (valuesAt (m ++ [(n, rows)]) c).filter
          (fun p => p.2 ≠ mv') := by
        rw [List.mem_filter]
        refine ⟨hmem, ?_⟩
        subst hcase
        simpa using hne
      exact List.ne_nil_of_mem hmemf
    · obtain ⟨p, hp, hps⟩ := List.mem_map.mp hmv_mem
      have hmem : p ∈ valuesAt (m ++ [(n, rows)]) c := by
        rw [valuesAt_append]
        exact List.mem_append_left _ hp
      have hmemf : p ∈ (valuesAt (m ++ [(n, rows)]) c).filter
          (fun p => p.2 ≠ mv') := by
        rw [List.mem_filter]
        refine ⟨hmem, ?_⟩
        rw [hps]
        simpa using fun hcontra => hcase hcontra.symm
      exact List.ne_nil_of_mem hmemf
  have hmm : mismatchAt (m ++ [(n, rows)]) c =
      some ⟨c, mv'.premio_clp, mv'.ganadores, s',
        disagreeingAt (m ++ [(n, rows)]) c, missingAt (m ++ [(n, rows)]) c⟩ := by
    unfold mismatchAt
    rw [hm'']
    have hcond : ((disagreeingAt (m ++ [(n, rows)]) c).isEmpty &&
        (missingAt (m ++ [(n, rows)]) c).isEmpty) = false := by
      apply Bool.eq_false_iff.mpr
      intro hcontra
      rw [Bool.and_eq_true] at hcontra
      have hnil := hcontra.1
      rw [List.isEmpty_iff] at hnil
      exact hdis_ne hnil
    simp only [hcond, Bool.false_eq_true, if_false]
  constructor
  · have hc_mem : c ∈ sortedCategories (m ++ [(n, rows)]) :=
      mem_sortedCategories_append m n rows c v hv
    have hmem : (⟨c, mv'.premio_clp, mv'.ganadores, s',
        disagreeingAt (m ++ [(n, rows)]) c, missingAt (m ++ [(n, rows)]) c⟩ : Mismatch) ∈
        (sortedCategories (m ++ [(n, rows)])).filterMap (mismatchAt (m ++ [(n, rows)])) := by
      rw [List.mem_filterMap]
      exact ⟨c, hc_mem, hmm⟩
    have := List.mem_map_of_mem Mismatch.categoria hmem
    exact this
  · have e1 : disagreeCount m c + (valsOf m c).count mv = (valuesAt m c).length := by
      unfold disagreeCount disagreeingAt
      rw [hm]
      exact filter_ne_length (valuesAt m c) mv
    have e2 : disagreeCount (m ++ [(n, rows)]) c +
        (valsOf (m ++ [(n, rows)]) c).count mv' =
        (valuesAt (m ++ [(n, rows)]) c).length := by
      unfold disagreeCount disagreeingAt
      rw [hm'']
      exact filter_ne_length _ mv'
    have hlen : (valuesAt (m ++ [(n, rows)]) c).length = (valuesAt m c).length + 1 := by
      rw [valuesAt_append, hvals1]
      simp
    have hcm : (valsOf m c).count mv = maxCount (valsOf m c) := (mostCommon_spec hm).2.1
    have hcm' : (valsOf (m ++ [(n, rows)]) c).count mv' =
        maxCount (valsOf (m ++ [(n, rows)]) c) := (mostCommon_spec hm').2.1
    have hmax : maxCount (valsOf (m ++ [(n, rows)]) c) ≤ maxCount (valsOf m c) + 1 := by
      rw [hvals']
      exact maxCount_append_singleton _ v
    have hmaxN : maxCount (valsOf m c) ≤ (valsOf m c).length := by
      rw [← hcm]
      exact List.count_le_length _ _
    have hvlen : (valsOf m c).length = (valuesAt m c).length := by
      simp [valsOf]
    rw [hcm] at e1
    rw [hcm'] at e2
    omega

/-- Witness for C8: two sources agree on `(1, 0)` for category `c`; adding
a third reporting `(2, 0)` makes `c` a mismatch with no fewer disagreeing
sources. -/
theorem mismatch_monotonicity_witness :
    "c" ∈ ((buildConsensus
        ([("a", [("c", (⟨1, 0⟩ : CategoryAmount))]), ("b", [("c", ⟨1, 0⟩)])] ++
          [("d", [("c", ⟨2, 0⟩)])])).2.1.map Mismatch.categoria) ∧
    disagreeCount [("a", [("c", ⟨1, 0⟩)]), ("b", [("c", ⟨1, 0⟩)])] "c" ≤
      disagreeCount ([("a", [("c", ⟨1, 0⟩)]), ("b", [("c", ⟨1, 0⟩)])] ++
        [("d", [("c", ⟨2, 0⟩)])]) "c" :=
  mismatch_monotonicity [("a", [("c", ⟨1, 0⟩)]), ("b", [("c", ⟨1, 0⟩)])] "c" "d"
    [("c", ⟨2, 0⟩)] ⟨2, 0⟩ ⟨1, 0⟩ 2 (by decide) (by decide) (by decide)

/-! Permutation invariance of the consensus builder (C2). -/

theorem sortedCategories_perm {m₁ m₂ : SourceMap} (h : m₁.Perm m₂) :
    sortedCategories m₁ = sortedCategories m₂ := by
  unfold sortedCategories
  refine List.eq_of_perm_of_sorted ?_
    (List.sorted_insertionSort _ _) (List.sorted_insertionSort _ _)
  refine (List.perm_insertionSort _ _).trans
    (List.Perm.trans ?_ (List.perm_insertionSort _ _).symm)
  exact (List.Perm.flatMap_right _ h).dedup

theorem valuesAt_perm {m₁ m₂ : SourceMap} (h : m₁.Perm m₂) (c : String) :
    (valuesAt m₁ c).Perm (valuesAt m₂ c) := h.filterMap _

theorem valsOf_perm {m₁ m₂ : SourceMap} (h : m₁.Perm m₂) (c : String) :
    (valsOf m₁ c).Perm (valsOf m₂ c) := (valuesAt_perm h c).map _

theorem foldr_max_perm {l₁ l₂ : List Nat} (h : l₁.Perm l₂) (b : Nat) :
    l₁.foldr max b = l₂.foldr max b := by
  induction h with
  | nil => rfl
  | cons x _ ih => simp only [List.foldr_cons, ih]
  | swap x y l =>
    simp only [List.foldr_cons]
    rw [Nat.max_left_comm]
  | trans _ _ ih₁ ih₂ => exact ih₁.trans ih₂

theorem maxCount_perm {v₁ v₂ : List CategoryAmount} (h : v₁.Perm v₂) :
    maxCount v₁ = maxCount v₂ := by
  unfold maxCount
  have hcongr : v₁.map (fun v => v₁.count v) = v₁.map (fun v => v₂.count v) :=
    List.map_congr_left (fun v _ => h.count_eq v)
  rw [hcongr]
  exact foldr_max_perm (h.map _) 0

theorem perm_isEmpty {α : Type} {l₁ l₂ : List α} (h : l₁.Perm l₂) :
    l₁.isEmpty = l₂.isEmpty := by
  rw [Bool.eq_iff_iff, List.isEmpty_iff, List.isEmpty_iff]
  constructor
  · intro h1
    exact List.perm_nil.mp (h1 ▸ h).symm
  · intro h2
    exact List.perm_nil.mp (h2 ▸ h)

theorem mostCommon_perm {v₁ v₂ : List CategoryAmount} (h : v₁.Perm v₂)
    (hu : UniqueMax v₁) : mostCommon v₁ = mostCommon v₂ := by
  by_cases hnil : v₁ = []
  · have hnil₂ : v₂ = [] := List.perm_nil.mp (hnil ▸ h).symm
    rw [hnil, hnil₂]
  · have hnil₂ : v₂ ≠ [] := fun h2 => hnil (List.perm_nil.mp (h2 ▸ h))
    obtain ⟨mv₁, s₁, h₁⟩ := mostCommon_isSome hnil
    obtain ⟨mv₂, s₂, h₂⟩ := mostCommon_isSome hnil₂
    obtain ⟨hm₁mem, hc₁, hs₁⟩ := mostCommon_spec h₁
    obtain ⟨hm₂mem, hc₂, hs₂⟩ := mostCommon_spec h₂
    have hmem₂ : mv₂ ∈ v₁ := h.mem_iff.mpr hm₂mem
    have hc₂' : v₁.count mv₂ = maxCount v₁ := by
      rw [h.count_eq mv₂, maxCount_perm h]
      exact hc₂
    have heq : mv₁ = mv₂ := hu mv₁ hm₁mem mv₂ hmem₂ hc₁ hc₂'
    subst heq
    have hseq : s₁ = s₂ := by
      rw [hs₁, hs₂, h.count_eq mv₁]
    rw [h₁, h₂, hseq]

theorem missingAt_perm {m₁ m₂ : SourceMap} (h : m₁.Perm m₂) (c : String) :
    (missingAt m₁ c).Perm (missingAt m₂ c) :=
  List.Perm.map _ (List.Perm.filter _ h)

/-- The relation between the two sides of an optional mismatch entry:
both absent, or both present and equivalent. -/
def OptionRelEquiv (R : Mismatch → Mismatch → Prop) :
    Option Mismatch → Option Mismatch → Prop
  | none, none => True
  | some a, some b => R a b
  | _, _ => False

theorem filterMap_forall₂ {R : Mismatch → Mismatch → Prop}
    {f g : String → Option Mismatch} :
    ∀ l : List String, (∀ a ∈ l, OptionRelEquiv R (f a) (g a)) →
      List.Forall₂ R (l.filterMap f) (l.filterMap g)
  | [], _ => by simp
  | a :: l, h => by
    rw [List.filterMap_cons, List.filterMap_cons]
    have ha := h a (List.mem_cons_self a l)
    have hrest := filterMap_forall₂ l (fun b hb => h b (List.mem_cons_of_mem a hb))
    cases hfa : f a with
    | none =>
      cases hga : g a with
      | none => exact hrest
      | some y =>
        rw [hfa, hga] at ha
        exact False.elim ha
    | some x =>
      cases hga : g a with
      | none =>
        rw [hfa, hga] at ha
        exact False.elim ha
      | some y =>
        rw [hfa, hga] at ha
        exact List.Forall₂.cons ha hrest

theorem consensusAt_perm {m₁ m₂ : SourceMap} (h : m₁.Perm m₂) (c : String)
    (hu : UniqueMax (valsOf m₁ c)) : consensusAt m₁ c = consensusAt m₂ c := by
  unfold consensusAt majorityAt
  rw [mostCommon_perm (valsOf_perm h c) hu]

theorem mismatchAt_perm {m₁ m₂ : SourceMap} (h : m₁.Perm m₂) (c : String)
    (hu : UniqueMax (valsOf m₁ c)) :
    OptionRelEquiv MismatchEquiv (mismatchAt m₁ c) (mismatchAt m₂ c) := by
  have hmaj : majorityAt m₁ c = majorityAt m₂ c := by
    unfold majorityAt
    exact mostCommon_perm (valsOf_perm h c) hu
  unfold mismatchAt
  rw [← hmaj]
  cases hmv : majorityAt m₁ c with
  | none => exact trivial
  | some p =>
    obtain ⟨mv, cnt⟩ := p
    have hdis : (disagreeingAt m₁ c).Perm (disagreeingAt m₂ c) := by
      unfold disagreeingAt
      rw [← hmaj, hmv]
      exact List.Perm.filter _ (valuesAt_perm h c)
    have hmiss : (missingAt m₁ c).Perm (missingAt m₂ c) := missingAt_perm h c
    have hcond : ((disagreeingAt m₂ c).isEmpty && (missingAt m₂ c).isEmpty) =
        ((disagreeingAt m₁ c).isEmpty && (missingAt m₁ c).isEmpty) := by
      rw [perm_isEmpty hdis, perm_isEmpty hmiss]
    rw [hcond]
    show OptionRelEquiv MismatchEquiv
      (if ((disagreeingAt m₁ c).isEmpty && (missingAt m₁ c).isEmpty) = true then none
       else some ⟨c, mv.premio_clp, mv.ganadores, cnt, disagreeingAt m₁ c, missingAt m₁ c⟩)
      (if ((disagreeingAt m₁ c).isEmpty && (missingAt m₁ c).isEmpty) = true then none
       else some ⟨c, mv.premio_clp, mv.ganadores, cnt, disagreeingAt m₂ c, missingAt m₂ c⟩)
    by_cases hc2 : ((disagreeingAt m₁ c).isEmpty && (missingAt m₁ c).isEmpty) = true
    · rw [if_pos hc2, if_pos hc2]
      exact trivial
    · rw [if_neg hc2, if_neg hc2]
      show MismatchEquiv _ _
      exact ⟨rfl, rfl, rfl, rfl, hdis, hmiss⟩

theorem rows_perm_eq {m₁ m₂ : SourceMap} (h : m₁.Perm m₂) (hnt : NoTies m₁) :
    (buildConsensus m₁).1 = (buildConsensus m₂).1 := by
  show (sortedCategories m₁).filterMap (consensusAt m₁) =
    (sortedCategories m₂).filterMap (consensusAt m₂)
  rw [← sortedCategories_perm h]
  apply List.filterMap_congr
  intro c hc
  exact consensusAt_perm h c (hnt c hc)

theorem mismatches_perm {m₁ m₂ : SourceMap} (h : m₁.Perm m₂) (hnt : NoTies m₁) :
    List.Forall₂ MismatchEquiv (buildConsensus m₁).2.1 (buildConsensus m₂).2.1 := by
  show List.Forall₂ MismatchEquiv ((sortedCategories m₁).filterMap (mismatchAt m₁))
    ((sortedCategories m₂).filterMap (mismatchAt m₂))
  rw [← sortedCategories_perm h]
  exact filterMap_forall₂ _ (fun c hc => mismatchAt_perm h c (hnt c hc))

/-- C2 counterexample: with a 1-1 tie on category `c`, permuting the two
sources flips the majority value (the counting structure returns its
first-inserted value on ties), so the consensus rows differ. -/
theorem consensus_purity_counterexample :
    ([("a", [("c", (⟨1, 0⟩ : CategoryAmount))]), ("b", [("c", ⟨2, 0⟩)])] : SourceMap).Perm
      [("b", [("c", ⟨2, 0⟩)]), ("a", [("c", ⟨1, 0⟩)])] ∧
    (buildConsensus [("a", [("c", ⟨1, 0⟩)]), ("b", [("c", ⟨2, 0⟩)])]).1 ≠
      (buildConsensus [("b", [("c", ⟨2, 0⟩)]), ("a", [("c", ⟨1, 0⟩)])]).1 :=
  ⟨List.Perm.swap _ _ _, by decide⟩

/-- C2 (amended): when every category's majority value is uniquely
determined (no tie in maximal support), any permutation of the source map
yields identical consensus rows, an identical mismatch ratio, and
mismatches that correspond entry by entry — same category, majority value
and support count — with the `disagreeing` map and `missing_sources` list
equal up to their internal order. -/
theorem consensus_purity (m₁ m₂ : SourceMap) (h : m₁.Perm m₂) (hnt : NoTies m₁) :
    (buildConsensus m₁).1 = (buildConsensus m₂).1 ∧
    (buildConsensus m₁).2.2 = (buildConsensus m₂).2.2 ∧
    List.Forall₂ MismatchEquiv (buildConsensus m₁).2.1 (buildConsensus m₂).2.1 := by
  have hrows := rows_perm_eq h hnt
  have hmms := mismatches_perm h hnt
  refine ⟨hrows, ?_, hmms⟩
  rw [ratio_eq, ratio_eq, hrows, hmms.length_eq]

/-- Witness for C2 (amended): two agreeing sources, swapped. -/
theorem consensus_purity_witness :
    (buildConsensus [("a", [("c", (⟨7, 1⟩ : CategoryAmount))]), ("b", [("c", ⟨7, 1⟩)])]).1 =
      (buildConsensus [("b", [("c", (⟨7, 1⟩ : CategoryAmount))]), ("a", [("c", ⟨7, 1⟩)])]).1 ∧
    (buildConsensus [("a", [("c", (⟨7, 1⟩ : CategoryAmount))]), ("b", [("c", ⟨7, 1⟩)])]).2.2 =
      (buildConsensus [("b", [("c", (⟨7, 1⟩ : CategoryAmount))]), ("a", [("c", ⟨7, 1⟩)])]).2.2 ∧
    List.Forall₂ MismatchEquiv
      (buildConsensus [("a", [("c", (⟨7, 1⟩ : CategoryAmount))]), ("b", [("c", ⟨7, 1⟩)])]).2.1
      (buildConsensus [("b", [("c", (⟨7, 1⟩ : CategoryAmount))]), ("a", [("c", ⟨7, 1⟩)])]).2.1 :=
  consensus_purity _ _ (List.Perm.swap _ _ _) (by decide)

end Polla
